import Mathlib

/-!
Verification of the build-orchestration reconciliation engine of the
denovo-benchmarks runner.

The development shallowly embeds the ledger (`BuildState.states` of
`runner/build_state.py`), its store operations, the Slurm job classifier
`check_job_status` with its `_check_job_logs` fallback, the reconciliation
pass of `update_from_slurm` plus the Alexandria-reality loop of
`check_and_display_builds` (`runner/container_builder.py`), the submission
planner (`needs_building`), and the evaluation-container check.

Conventions of the embedding:
- Python dicts become ordered association lists (`States`); value update for
  an existing key keeps its position, a new key is appended, matching dict
  insertion-order semantics.
- Timestamps (`datetime.now().isoformat()`) become an abstract `now : Nat`
  passed into every mutating operation.
- External commands (squeue, sacct, the ssh existence probe, the captured
  log files) become a `World` record of functions from job id / path to the
  observed output, a fixed snapshot for one cycle.
- String scanning (strip, upper, substring membership, first line,
  `key.split("@")`) is implemented by structural recursion on `String.data`
  so every definition reduces in the kernel.
-/

/-- Python's `str.strip` whitespace test (space, tab, newline, carriage
return, vertical tab, form feed). -/
def pyIsSpace (c : Char) : Bool :=
  c == ' ' || c == '\t' || c == '\n' || c == '\r' || c == '\x0b' || c == '\x0c'

/-- Chars of `l` with leading and trailing Python whitespace removed. -/
def trimChars (l : List Char) : List Char :=
  ((l.dropWhile pyIsSpace).reverse.dropWhile pyIsSpace).reverse

/-- Python `s.strip()`. -/
def pyStrip (s : String) : String :=
  String.mk (trimChars s.data)

/-- Chars before the first newline: `s.split("\n")[0]`. -/
def firstLineChars (l : List Char) : List Char :=
  l.takeWhile (fun c => c != '\n')

/-- Python `s.upper()` for the ASCII range used by Slurm state tokens. -/
def upperChars (l : List Char) : List Char :=
  l.map Char.toUpper

/-- Boolean list-prefix test used to implement substring membership. -/
def isPrefixChars : List Char → List Char → Bool
  | [], _ => true
  | _ :: _, [] => false
  | p :: ps, c :: cs => p == c && isPrefixChars ps cs

/-- Boolean substring test on char lists (Python `pat in s`). -/
def containsSub (pat : List Char) : List Char → Bool
  | [] => isPrefixChars pat []
  | c :: t => isPrefixChars pat (c :: t) || containsSub pat t

/-- Python `pat in hay` for strings. -/
def containsStr (hay pat : String) : Bool :=
  containsSub pat.data hay.data

/-- Splits a char list at its first `'@'`. -/
def splitFirstAux : List Char → List Char × List Char
  | [] => ([], [])
  | c :: t =>
    if c == '@' then ([], t)
    else
      let p := splitFirstAux t
      (c :: p.1, p.2)

/-- Model of `algo_name, version = key.split("@")` in `update_from_slurm`:
faithful whenever the key contains exactly one `'@'` (every key produced by
`get_key` from `'@'`-free names is of this shape; on other keys the Python
unpacking raises, so no completed run reaches them). -/
def splitKey (k : String) : String × String :=
  (String.mk (splitFirstAux k.data).1, String.mk (splitFirstAux k.data).2)

/-- State key for an algorithm and version (`BuildState.get_key`). -/
def get_key (a v : String) : String :=
  a ++ "@" ++ v

/-- Captured result of a subprocess call: return code and stdout. -/
structure CmdResult where
  returncode : Int
  stdout : String
deriving DecidableEq

/-- One ledger record, the value stored under a `"<algo>@<version>"` key.
Optional fields of the Python dict are `Option`s. -/
structure BuildRecord where
  status : String
  job_id : Option String
  started_at : Nat
  updated_at : Nat
  error : Option String
deriving DecidableEq

/-- The persisted ledger `BuildState.states`, an insertion-ordered map. -/
abbrev States := List (String × BuildRecord)

/-- Dict lookup `states.get(key)`. -/
def states_get : States → String → Option BuildRecord
  | [], _ => none
  | (k, r) :: t, key => if k = key then some r else states_get t key

/-- Dict assignment `states[key] = r`: replaces in place, appends if new. -/
def states_set : States → String → BuildRecord → States
  | [], key, r => [(key, r)]
  | (k, r0) :: t, key, r =>
    if k = key then (key, r) :: t else (k, r0) :: states_set t key r

/-- Dict deletion `del states[key]` (guarded by membership in the source). -/
def states_erase : States → String → States
  | [], _ => []
  | (k, r0) :: t, key => if k = key then t else (k, r0) :: states_erase t key

/-- `BuildState.mark_building`: starts a new episode, overwriting any prior
record for the key. -/
def mark_building (L : States) (a v jid : String) (now : Nat) : States :=
  states_set L (get_key a v) ⟨"building", some jid, now, now, none⟩

/-- `BuildState.mark_completed`: sets status and `updated_at` on an existing
record; a no-op when the key is absent. Note it does not touch `error`. -/
def mark_completed (L : States) (a v : String) (now : Nat) : States :=
  match states_get L (get_key a v) with
  | none => L
  | some r => states_set L (get_key a v) { r with status := "completed", updated_at := now }

/-- `BuildState.mark_failed`: sets status and `updated_at`; stores the
diagnostic only when it is truthy (`if error:`). No-op when absent. -/
def mark_failed (L : States) (a v : String) (error : Option String) (now : Nat) : States :=
  match states_get L (get_key a v) with
  | none => L
  | some r =>
    states_set L (get_key a v)
      { r with status := "failed", updated_at := now,
               error := match error with
                 | some e => if e = "" then r.error else some e
                 | none => r.error }

/-- `BuildState.clear_status`: removes the record when present. -/
def clear_status (L : States) (a v : String) : States :=
  states_erase L (get_key a v)

/-- `BuildState.get_status`. -/
def get_status (L : States) (a v : String) : Option BuildRecord :=
  states_get L (get_key a v)

/-- Failure markers scanned by `_check_job_logs`. -/
def failure_indicators : List String :=
  ["FATAL:", "exit status 1", "✗ Container build failed",
   "✗ Transfer to Alexandria failed", "Error:", "FAILED"]

/-- Success markers scanned by `_check_job_logs`. -/
def success_indicators : List String :=
  ["Container Build Complete!", "✓ Container transferred to Alexandria"]

/-- `BuildState._check_job_logs`: log-file fallback classifier. `none`
stands for "no matching log file" (and for a read failure, which the
`except` clause also turns into "unknown"). -/
def check_job_logs (log : Option String) : String :=
  match log with
  | none => "unknown"
  | some content =>
    if failure_indicators.any (fun i => containsStr content i) then "failed"
    else if success_indicators.any (fun i => containsStr content i) then "completed"
    else "unknown"

/-- Terminal sacct states mapped to "failed" by `check_job_status`. -/
def terminal_failure_states : List String :=
  ["FAILED", "CANCELLED", "TIMEOUT", "NODE_FAIL", "OUT_OF_MEMORY"]

/-- `BuildState.check_job_status`: live-queue query first ("running"
short-circuits everything), then accounting, then the log fallback. -/
def check_job_status (squeue sacct : CmdResult) (log : Option String) : String :=
  if squeue.returncode ≠ 0 ∨ pyStrip squeue.stdout = "" then
    if sacct.returncode = 0 ∧ pyStrip sacct.stdout ≠ "" then
      let state : String := String.mk (upperChars (firstLineChars (trimChars sacct.stdout.data)))
      if containsStr state "COMPLETED" then "completed"
      else if terminal_failure_states.any (fun x => containsStr state x) then "failed"
      else check_job_logs log
    else check_job_logs log
  else "running"

/-- The `config["alexandria"]` fields the reconciliation pass reads. -/
structure RunnerConfig where
  host : String
  containers_path : String

/-- One cycle's snapshot of the external world: squeue/sacct answers and
captured log content per job id, ssh existence-probe stdout per remote
path. -/
structure World where
  squeue : String → CmdResult
  sacct : String → CmdResult
  log : String → Option String
  probe : String → String

/-- Remote artifact path `<containers_path>/<algo>/<version>/container.sif`. -/
def container_path (cfg : RunnerConfig) (a v : String) : String :=
  cfg.containers_path ++ "/" ++ a ++ "/" ++ v ++ "/container.sif"

/-- `check_job_status` applied to one job id's snapshot. -/
def resolve_job (w : World) (jid : String) : String :=
  check_job_status (w.squeue jid) (w.sacct jid) (w.log jid)

/-- Diagnostic stored when a completed job left no artifact remotely. -/
def missing_diag : String :=
  "Slurm job completed but container not found on Alexandria"

/-- Body of the `update_from_slurm` loop for one ledger entry `kv`
(examining the snapshot record, mutating the accumulated ledger). -/
def ufs_step (w : World) (cfg : Option RunnerConfig) (now : Nat)
    (acc : States) (kv : String × BuildRecord) : States :=
  if kv.2.status = "building" then
    match kv.2.job_id with
    | some jid =>
      if resolve_job w jid = "completed" then
        match cfg with
        | some c =>
          if pyStrip (w.probe (container_path c (splitKey kv.1).1 (splitKey kv.1).2))
              = "exists" then
            mark_completed acc (splitKey kv.1).1 (splitKey kv.1).2 now
          else
            mark_failed acc (splitKey kv.1).1 (splitKey kv.1).2 (some missing_diag) now
        | none => mark_completed acc (splitKey kv.1).1 (splitKey kv.1).2 now
      else if resolve_job w jid = "failed" then
        mark_failed acc (splitKey kv.1).1 (splitKey kv.1).2 (some "Slurm job failed") now
      else acc
    | none => acc
  else acc

/-- `BuildState.update_from_slurm`: folds the per-entry step over the
ledger's entries (the loop mutates only the entry under scrutiny, so
iterating the pre-pass entry list matches the source's live iteration). -/
def update_from_slurm (w : World) (cfg : Option RunnerConfig) (now : Nat) (L : States) : States :=
  L.foldl (ufs_step w cfg now) L

/-- Pure per-record characterisation of what `update_from_slurm` does to a
record stored under key `k`. -/
def record_update (w : World) (cfg : Option RunnerConfig) (now : Nat)
    (k : String) (r : BuildRecord) : BuildRecord :=
  if r.status = "building" then
    match r.job_id with
    | some jid =>
      if resolve_job w jid = "completed" then
        match cfg with
        | some c =>
          if pyStrip (w.probe (container_path c (splitKey k).1 (splitKey k).2)) = "exists" then
            { r with status := "completed", updated_at := now }
          else
            { r with status := "failed", updated_at := now, error := some missing_diag }
        | none => { r with status := "completed", updated_at := now }
      else if resolve_job w jid = "failed" then
        { r with status := "failed", updated_at := now, error := some "Slurm job failed" }
      else r
    | none => r
  else r

/-- Body of the Alexandria-reality loop of `check_and_display_builds`:
if the container exists remotely but the record is not "completed", force
it to "completed". `cs` is `container_status.get(name, False)`. -/
def alex_step (cs : String → Bool) (now : Nat) (acc : States) (av : String × String) : States :=
  match get_status acc av.1 av.2 with
  | some st =>
    if cs av.1 = true ∧ st.status ≠ "completed" then mark_completed acc av.1 av.2 now
    else acc
  | none => acc

/-- The Alexandria-reality loop over the cycle's algorithm list. -/
def reconcile_alexandria (algos : List (String × String)) (cs : String → Bool)
    (now : Nat) (L : States) : States :=
  algos.foldl (alex_step cs now) L

/-- One full reconciliation pass of `check_and_display_builds`:
`update_from_slurm(config)` followed by the Alexandria-reality loop. -/
def reconcile (w : World) (cfg : RunnerConfig) (algos : List (String × String))
    (cs : String → Bool) (now : Nat) (L : States) : States :=
  reconcile_alexandria algos cs now (update_from_slurm w (some cfg) now L)

/-- Pure per-record characterisation of the Alexandria-reality loop. -/
def alex_transform (algos : List (String × String)) (cs : String → Bool)
    (now : Nat) (k : String) (r : BuildRecord) : BuildRecord :=
  if (algos.any fun av => get_key av.1 av.2 == k && cs av.1) ∧ r.status ≠ "completed" then
    { r with status := "completed", updated_at := now }
  else r

/-- Body of the planning loop of `check_and_display_builds` for one
algorithm: skip when the container exists, include when no record exists or
the record failed; "building" and "completed" records are not included. -/
def plan_step (cs : String → Bool) (L : States)
    (acc : List (String × String)) (av : String × String) : List (String × String) :=
  if cs av.1 = true then acc
  else
    match get_status L av.1 av.2 with
    | none => acc ++ [av]
    | some st => if st.status = "failed" then acc ++ [av] else acc

/-- The submission planner: the `needs_building` list returned by
`check_and_display_builds`, computed from the reconciled ledger. -/
def plan (algos : List (String × String)) (cs : String → Bool) (L : States) :
    List (String × String) :=
  algos.foldl (plan_step cs L) []

/-- Decision core of `check_and_build_evaluation_container`: after
`update_from_slurm`, either reconcile with remote reality (when the
evaluation container exists) or decide whether it needs building. Returns
the decision and the resulting ledger. -/
def eval_needs_build (w : World) (cfg : RunnerConfig) (now : Nat)
    (evaluation_exists : Bool) (L : States) : Bool × States :=
  match evaluation_exists with
  | true =>
    match get_status (update_from_slurm w (some cfg) now L) "evaluation" "evaluation" with
    | some st =>
      if st.status ≠ "completed" then
        (false, mark_completed (update_from_slurm w (some cfg) now L) "evaluation" "evaluation" now)
      else (false, update_from_slurm w (some cfg) now L)
    | none => (false, update_from_slurm w (some cfg) now L)
  | false =>
    match get_status (update_from_slurm w (some cfg) now L) "evaluation" "evaluation" with
    | none => (true, update_from_slurm w (some cfg) now L)
    | some st =>
      if st.status = "building" then (false, update_from_slurm w (some cfg) now L)
      else if st.status = "failed" then (true, update_from_slurm w (some cfg) now L)
      else if st.status = "completed" then (true, update_from_slurm w (some cfg) now L)
      else (false, update_from_slurm w (some cfg) now L)

/-- A key on which the modelled `splitKey` recomposes: the shape of every
key built by `get_key` from an `'@'`-free name (on other keys the Python
`key.split("@")` unpacking raises). -/
def goodKey (k : String) : Prop :=
  get_key (splitKey k).1 (splitKey k).2 = k

/-- Every key of the ledger recomposes; holds of every ledger the store
itself writes. -/
def WFStates (L : States) : Prop :=
  ∀ kv ∈ L, goodKey kv.1

/-- Ledger keys are pairwise distinct, as in a Python dict. -/
def NodupKeys (L : States) : Prop :=
  (L.map Prod.fst).Nodup

instance (k : String) : Decidable (goodKey k) :=
  inferInstanceAs (Decidable (_ = _))

instance (L : States) : Decidable (WFStates L) :=
  inferInstanceAs (Decidable (∀ kv ∈ L, goodKey kv.1))

instance (L : States) : Decidable (NodupKeys L) :=
  inferInstanceAs (Decidable (List.Nodup _))

/-! Association-list lemmas for the ledger operations. -/

theorem states_get_set_self (L : States) (k : String) (r : BuildRecord) :
    states_get (states_set L k r) k = some r := by
  induction L with
  | nil => simp [states_set, states_get]
  | cons kv t ih =>
    obtain ⟨k0, r0⟩ := kv
    by_cases h : k0 = k
    · simp [states_set, h, states_get]
    · simp [states_set, h, states_get, ih]

theorem states_get_set_other (L : States) {k k' : String} (r : BuildRecord) (h : k ≠ k') :
    states_get (states_set L k r) k' = states_get L k' := by
  induction L with
  | nil => simp [states_set, states_get, h]
  | cons kv t ih =>
    obtain ⟨k0, r0⟩ := kv
    by_cases h0 : k0 = k
    · subst h0
      simp [states_set, states_get, h]
    · simp [states_set, h0, states_get, ih]

theorem states_set_self {L : States} {k : String} {r : BuildRecord}
    (h : states_get L k = some r) : states_set L k r = L := by
  induction L with
  | nil => simp [states_get] at h
  | cons kv t ih =>
    obtain ⟨k0, r0⟩ := kv
    by_cases h0 : k0 = k
    · subst h0
      simp [states_get] at h
      simp [states_set, h]
    · simp [states_get, h0] at h
      simp [states_set, h0, ih h]

theorem mem_of_states_get {L : States} {k : String} {r : BuildRecord}
    (h : states_get L k = some r) : (k, r) ∈ L := by
  induction L with
  | nil => simp [states_get] at h
  | cons kv t ih =>
    obtain ⟨k0, r0⟩ := kv
    by_cases h0 : k0 = k
    · subst h0
      simp [states_get] at h
      simp [h]
    · simp [states_get, h0] at h
      exact List.mem_cons_of_mem _ (ih h)

theorem states_get_of_mem_nodup {L : States} (hnd : NodupKeys L) {k : String}
    {r : BuildRecord} (h : (k, r) ∈ L) : states_get L k = some r := by
  induction L with
  | nil => simp at h
  | cons kv t ih =>
    obtain ⟨k0, r0⟩ := kv
    unfold NodupKeys at hnd
    simp only [List.map_cons, List.nodup_cons] at hnd
    rcases List.mem_cons.mp h with heq | hmem
    · rw [Prod.mk.injEq] at heq
      obtain ⟨hk, hr⟩ := heq
      subst hk; subst hr
      simp [states_get]
    · have hk0 : k0 ≠ k := by
        intro hc
        subst hc
        exact hnd.1 (List.mem_map_of_mem Prod.fst hmem)
      simp [states_get, hk0]
      exact ih hnd.2 hmem

theorem not_mem_of_states_get_none {L : States} {k : String}
    (h : states_get L k = none) : k ∉ L.map Prod.fst := by
  induction L with
  | nil => simp
  | cons kv t ih =>
    obtain ⟨k0, r0⟩ := kv
    by_cases h0 : k0 = k
    · simp [states_get, h0] at h
    · simp [states_get, h0] at h
      simp only [List.map_cons, List.mem_cons, not_or]
      exact ⟨fun hc => h0 hc.symm, ih h⟩

theorem states_get_none_of_not_mem {L : States} {k : String}
    (h : k ∉ L.map Prod.fst) : states_get L k = none := by
  induction L with
  | nil => simp [states_get]
  | cons kv t ih =>
    obtain ⟨k0, r0⟩ := kv
    simp only [List.map_cons, List.mem_cons, not_or] at h
    have h0 : ¬k0 = k := fun hc => h.1 hc.symm
    simp [states_get, h0, ih h.2]

theorem keys_states_set_of_mem {L : States} {k : String} (r : BuildRecord)
    (h : k ∈ L.map Prod.fst) :
    (states_set L k r).map Prod.fst = L.map Prod.fst := by
  induction L with
  | nil => simp at h
  | cons kv t ih =>
    obtain ⟨k0, r0⟩ := kv
    by_cases h0 : k0 = k
    · simp [states_set, h0]
    · simp only [List.map_cons, List.mem_cons] at h
      rcases h with hc | hm


      · exact absurd hc.symm h0
      · simp [states_set, h0, ih hm]

theorem states_erase_of_none {L : States} {k : String}
    (h : states_get L k = none) : states_erase L k = L := by
  induction L with
  | nil => rfl
  | cons kv t ih =>
    obtain ⟨k0, r0⟩ := kv
    by_cases h0 : k0 = k
    · simp [states_get, h0] at h
    · simp [states_get, h0] at h
      simp [states_erase, h0, ih h]

/-! Lemmas about the three record-mutating store operations. -/

theorem mark_completed_eq_set {L : States} {a v : String} {n : Nat} {r : BuildRecord}
    (h : states_get L (get_key a v) = some r) :
    mark_completed L a v n
      = states_set L (get_key a v) { r with status := "completed", updated_at := n } := by
  unfold mark_completed
  rw [h]

theorem mark_failed_eq_set {L : States} {a v e : String} {n : Nat} {r : BuildRecord}
    (h : states_get L (get_key a v) = some r) (he : e ≠ "") :
    mark_failed L a v (some e) n
      = states_set L (get_key a v)
          { r with status := "failed", updated_at := n, error := some e } := by
  unfold mark_failed
  rw [h]
  simp [he]

theorem mark_completed_get_other {L : States} {a v : String} {n : Nat} {k' : String}
    (h : get_key a v ≠ k') :
    states_get (mark_completed L a v n) k' = states_get L k' := by
  unfold mark_completed
  cases hg : states_get L (get_key a v)
  · rfl
  · exact states_get_set_other L _ h

theorem mark_failed_get_other {L : States} {a v : String} {e : Option String} {n : Nat}
    {k' : String} (h : get_key a v ≠ k') :
    states_get (mark_failed L a v e n) k' = states_get L k' := by
  unfold mark_failed
  cases hg : states_get L (get_key a v)
  · rfl
  · exact states_get_set_other L _ h

theorem keys_mark_completed (L : States) (a v : String) (n : Nat) :
    (mark_completed L a v n).map Prod.fst = L.map Prod.fst := by
  unfold mark_completed
  cases hg : states_get L (get_key a v)
  · rfl
  · exact keys_states_set_of_mem _ (List.mem_map_of_mem Prod.fst (mem_of_states_get hg))

theorem keys_mark_failed (L : States) (a v : String) (e : Option String) (n : Nat) :
    (mark_failed L a v e n).map Prod.fst = L.map Prod.fst := by
  unfold mark_failed
  cases hg : states_get L (get_key a v)
  · rfl
  · exact keys_states_set_of_mem _ (List.mem_map_of_mem Prod.fst (mem_of_states_get hg))

/-! Characterisation of one `update_from_slurm` step. -/

theorem keys_ufs_step (w : World) (cfg : Option RunnerConfig) (n : Nat)
    (acc : States) (kv : String × BuildRecord) :
    (ufs_step w cfg n acc kv).map Prod.fst = acc.map Prod.fst := by
  unfold ufs_step
  repeat' split
  all_goals first
    | rfl
    | apply keys_mark_completed
    | apply keys_mark_failed

theorem ufs_step_get_other (w : World) (cfg : Option RunnerConfig) (n : Nat)
    (acc : States) {kv : String × BuildRecord} {k' : String}
    (hg : goodKey kv.1) (h : kv.1 ≠ k') :
    states_get (ufs_step w cfg n acc kv) k' = states_get acc k' := by
  have ht : get_key (splitKey kv.1).1 (splitKey kv.1).2 ≠ k' := by
    rw [hg]; exact h
  unfold ufs_step
  repeat' split
  all_goals first
    | rfl
    | exact mark_completed_get_other ht
    | exact mark_failed_get_other ht

theorem ufs_step_char (w : World) (cfg : Option RunnerConfig) (n : Nat)
    (acc : States) {k : String} {r : BuildRecord}
    (hg : goodKey k) (hacc : states_get acc k = some r) :
    ufs_step w cfg n acc (k, r) = states_set acc k (record_update w cfg n k r) := by
  have hacc' : states_get acc (get_key (splitKey k).1 (splitKey k).2) = some r := by
    rw [hg]; exact hacc
  unfold ufs_step record_update
  by_cases hb : r.status = "building"
  · simp only [hb, if_true]
    cases hj : r.job_id with
    | none => exact (states_set_self hacc).symm
    | some jid =>
      simp only
      by_cases hc : resolve_job w jid = "completed"
      · simp only [hc, if_true]
        cases cfg with
        | some c =>
          by_cases hp :
              pyStrip (w.probe (container_path c (splitKey k).1 (splitKey k).2)) = "exists"
          · simp only [hp, if_true]
            rw [mark_completed_eq_set hacc', hg, hj]
          · simp only [hp, if_false]
            rw [mark_failed_eq_set hacc' (by decide), hg, hj]
        | none =>
          rw [mark_completed_eq_set hacc', hg, hj]
      · simp only [hc, if_false]
        by_cases hf : resolve_job w jid = "failed"
        · simp only [hf, if_true]
          rw [mark_failed_eq_set hacc' (by decide), hg, hj]
        · simp only [hf, if_false]
          exact (states_set_self hacc).symm
  · simp only [hb, if_false]
    exact (states_set_self hacc).symm

/-! Fold lemmas lifting the step characterisation to `update_from_slurm`. -/

theorem foldl_fixed {α β : Type} {f : α → β → α} {a : α} {l : List β}
    (h : ∀ x ∈ l, f a x = a) : l.foldl f a = a := by
  induction l with
  | nil => rfl
  | cons x t ih =>
    rw [List.foldl_cons, h x (List.mem_cons_self x t)]
    exact ih fun y hy => h y (List.mem_cons_of_mem x hy)

theorem ufs_fold_get_preserved (w : World) (cfg : Option RunnerConfig) (n : Nat)
    {l : List (String × BuildRecord)} {k : String}
    (hl : ∀ kv ∈ l, goodKey kv.1 ∧ kv.1 ≠ k) :
    ∀ acc : States,
      states_get (l.foldl (ufs_step w cfg n) acc) k = states_get acc k := by
  induction l with
  | nil => intro acc; rfl
  | cons kv t ih =>
    intro acc
    rw [List.foldl_cons]
    have hkv := hl kv (List.mem_cons_self kv t)
    rw [ih (fun y hy => hl y (List.mem_cons_of_mem kv hy)) _,
      ufs_step_get_other w cfg n acc hkv.1 hkv.2]

theorem ufs_fold_char (w : World) (cfg : Option RunnerConfig) (n : Nat)
    {l : List (String × BuildRecord)} {k : String} {r : BuildRecord} :
    ∀ acc : States, (∀ kv ∈ l, goodKey kv.1) → (l.map Prod.fst).Nodup →
      (k, r) ∈ l → states_get acc k = some r →
      states_get (l.foldl (ufs_step w cfg n) acc) k
        = some (record_update w cfg n k r) := by
  induction l with
  | nil => intro acc _ _ hmem _; simp at hmem
  | cons kv t ih =>
    intro acc hwf hnd hmem hacc
    obtain ⟨k0, r0⟩ := kv
    simp only [List.map_cons, List.nodup_cons] at hnd
    rcases List.mem_cons.mp hmem with heq | hmem'
    · rw [Prod.mk.injEq] at heq
      obtain ⟨hk, hr⟩ := heq
      subst hk; subst hr
      rw [List.foldl_cons,
        ufs_step_char w cfg n acc (hwf (k, r) (List.mem_cons_self _ t)) hacc]
      have hpres : ∀ kv' ∈ t, goodKey kv'.1 ∧ kv'.1 ≠ k := by
        intro kv' hkv'
        refine ⟨hwf kv' (List.mem_cons_of_mem _ hkv'), ?_⟩
        intro hc
        exact hnd.1 (hc ▸ List.mem_map_of_mem Prod.fst hkv')
      rw [ufs_fold_get_preserved w cfg n hpres _, states_get_set_self]
    · have hk0 : k0 ≠ k := by
        intro hc
        subst hc
        exact hnd.1 (List.mem_map_of_mem Prod.fst hmem')
      rw [List.foldl_cons]
      refine ih _ (fun y hy => hwf y (List.mem_cons_of_mem _ hy)) hnd.2 hmem' ?_
      rw [ufs_step_get_other w cfg n acc
        (hwf (k0, r0) (List.mem_cons_self _ t)) hk0]
      exact hacc

theorem update_get_some {w : World} {cfg : Option RunnerConfig} {n : Nat}
    {L : States} {k : String} {r : BuildRecord}
    (hwf : WFStates L) (hnd : NodupKeys L) (h : states_get L k = some r) :
    states_get (update_from_slurm w cfg n L) k = some (record_update w cfg n k r) :=
  ufs_fold_char w cfg n L hwf hnd (mem_of_states_get h) h

theorem update_get_none {w : World} {cfg : Option RunnerConfig} {n : Nat}
    {L : States} {k : String}
    (hwf : WFStates L) (h : states_get L k = none) :
    states_get (update_from_slurm w cfg n L) k = none := by
  have hpres : ∀ kv ∈ L, goodKey kv.1 ∧ kv.1 ≠ k := by
    intro kv hkv
    refine ⟨hwf kv hkv, ?_⟩
    intro hc
    exact not_mem_of_states_get_none h (hc ▸ List.mem_map_of_mem Prod.fst hkv)
  rw [update_from_slurm, ufs_fold_get_preserved w cfg n hpres L]
  exact h

theorem keys_ufs_fold (w : World) (cfg : Option RunnerConfig) (n : Nat)
    (l : List (String × BuildRecord)) :
    ∀ acc : States,
      ((l.foldl (ufs_step w cfg n) acc).map Prod.fst) = acc.map Prod.fst := by
  induction l with
  | nil => intro acc; rfl
  | cons kv t ih =>
    intro acc
    rw [List.foldl_cons, ih _, keys_ufs_step]

theorem keys_update (w : World) (cfg : Option RunnerConfig) (n : Nat) (L : States) :
    (update_from_slurm w cfg n L).map Prod.fst = L.map Prod.fst :=
  keys_ufs_fold w cfg n L L

/-! Characterisation of the Alexandria-reality loop. -/

theorem keys_alex_step (cs : String → Bool) (n : Nat) (acc : States)
    (av : String × String) :
    (alex_step cs n acc av).map Prod.fst = acc.map Prod.fst := by
  unfold alex_step
  repeat' split
  all_goals first
    | rfl
    | apply keys_mark_completed

theorem alex_step_get_other (cs : String → Bool) (n : Nat) (acc : States)
    {av : String × String} {k' : String} (h : get_key av.1 av.2 ≠ k') :
    states_get (alex_step cs n acc av) k' = states_get acc k' := by
  unfold alex_step
  repeat' split
  all_goals first
    | rfl
    | exact mark_completed_get_other h

theorem alex_transform_nil (cs : String → Bool) (n : Nat) (k : String) (r : BuildRecord) :
    alex_transform [] cs n k r = r := by
  simp [alex_transform]

theorem alex_transform_cons_miss {av : String × String} {rest : List (String × String)}
    {cs : String → Bool} {n : Nat} {k : String} (r : BuildRecord)
    (h : (get_key av.1 av.2 == k && cs av.1) = false) :
    alex_transform (av :: rest) cs n k r = alex_transform rest cs n k r := by
  unfold alex_transform
  rw [List.any_cons, h, Bool.false_or]

theorem alex_transform_of_completed {algos : List (String × String)}
    {cs : String → Bool} {n : Nat} {k : String} {r : BuildRecord}
    (h : r.status = "completed") : alex_transform algos cs n k r = r := by
  unfold alex_transform
  simp [h]

theorem alex_transform_cons_hit {av : String × String} {rest : List (String × String)}
    {cs : String → Bool} {n : Nat} {k : String} {r : BuildRecord}
    (hk : get_key av.1 av.2 = k) (hcs : cs av.1 = true) (hcomp : r.status ≠ "completed") :
    alex_transform (av :: rest) cs n k r = { r with status := "completed", updated_at := n } := by
  unfold alex_transform
  rw [List.any_cons]
  simp [hk, hcs, hcomp]

theorem alex_fold_char (cs : String → Bool) (n : Nat) :
    ∀ (algos : List (String × String)) (M : States) (k : String),
      states_get (reconcile_alexandria algos cs n M) k
        = (states_get M k).map (alex_transform algos cs n k) := by
  intro algos
  induction algos with
  | nil =>
    intro M k
    have h0 : reconcile_alexandria [] cs n M = M := rfl
    rw [h0]
    cases states_get M k with
    | none => rfl
    | some r => rw [Option.map_some', alex_transform_nil]
  | cons av rest ih =>
    intro M k
    unfold reconcile_alexandria at ih ⊢
    rw [List.foldl_cons, ih (alex_step cs n M av) k]
    by_cases hk : get_key av.1 av.2 = k
    · cases hM : states_get M k with
      | none =>
        have hstep : alex_step cs n M av = M := by
          unfold alex_step get_status
          rw [hk, hM]
        rw [hstep, hM]
        rfl
      | some r =>
        by_cases hcs : cs av.1 = true
        · by_cases hcomp : r.status = "completed"
          · have hstep : alex_step cs n M av = M := by
              unfold alex_step get_status
              rw [hk, hM]
              simp [hcomp]
            rw [hstep, hM, Option.map_some', Option.map_some',
              alex_transform_of_completed hcomp, alex_transform_of_completed hcomp]
          · have hstep : alex_step cs n M av
                = states_set M k { r with status := "completed", updated_at := n } := by
              unfold alex_step get_status
              rw [hk, hM]
              simp only [hcs, hcomp, ne_eq, not_false_iff, and_self, if_true]
              rw [mark_completed_eq_set (by rw [hk]; exact hM), hk]
            rw [hstep, states_get_set_self, Option.map_some', Option.map_some',
              alex_transform_of_completed rfl, alex_transform_cons_hit hk hcs hcomp]
        · have hcsf : cs av.1 = false := by
            cases hv : cs av.1
            · rfl
            · exact absurd hv hcs
          have hstep : alex_step cs n M av = M := by
            unfold alex_step get_status
            rw [hk, hM]
            simp [hcsf]
          rw [hstep, hM, Option.map_some', Option.map_some',
            alex_transform_cons_miss r (by rw [hcsf, Bool.and_false])]
    · have hb : (get_key av.1 av.2 == k && cs av.1) = false := by
        have : (get_key av.1 av.2 == k) = false := by
          simp [hk]
        rw [this, Bool.false_and]
      rw [alex_step_get_other cs n M hk]
      cases states_get M k with
      | none => rfl
      | some r =>
        rw [Option.map_some', Option.map_some', alex_transform_cons_miss r hb]

theorem keys_alex_fold (cs : String → Bool) (n : Nat)
    (algos : List (String × String)) :
    ∀ M : States,
      (reconcile_alexandria algos cs n M).map Prod.fst = M.map Prod.fst := by
  induction algos with
  | nil => intro M; rfl
  | cons av rest ih =>
    intro M
    unfold reconcile_alexandria at ih ⊢
    rw [List.foldl_cons, ih _, keys_alex_step]

/-! Reconciliation pass: lookup characterisation and frame lemmas. -/

theorem keys_reconcile (w : World) (cfg : RunnerConfig) (algos : List (String × String))
    (cs : String → Bool) (n : Nat) (L : States) :
    (reconcile w cfg algos cs n L).map Prod.fst = L.map Prod.fst := by
  unfold reconcile
  rw [keys_alex_fold, keys_update]

theorem wf_of_keys_eq {L' L : States}
    (h : L'.map Prod.fst = L.map Prod.fst) (hwf : WFStates L) : WFStates L' := by
  intro kv hkv
  have : kv.1 ∈ L.map Prod.fst := h ▸ List.mem_map_of_mem Prod.fst hkv
  obtain ⟨x, hx, hx1⟩ := List.mem_map.mp this
  exact hx1 ▸ hwf x hx

theorem nodup_of_keys_eq {L' L : States}
    (h : L'.map Prod.fst = L.map Prod.fst) (hnd : NodupKeys L) : NodupKeys L' := by
  unfold NodupKeys at *
  rw [h]
  exact hnd

theorem reconcile_get_some {w : World} {cfg : RunnerConfig}
    {algos : List (String × String)} {cs : String → Bool} {n : Nat}
    {L : States} {k : String} {r : BuildRecord}
    (hwf : WFStates L) (hnd : NodupKeys L) (h : states_get L k = some r) :
    states_get (reconcile w cfg algos cs n L) k
      = some (alex_transform algos cs n k (record_update w (some cfg) n k r)) := by
  unfold reconcile
  rw [alex_fold_char, update_get_some hwf hnd h]
  rfl

theorem reconcile_get_none {w : World} {cfg : RunnerConfig}
    {algos : List (String × String)} {cs : String → Bool} {n : Nat}
    {L : States} {k : String}
    (hwf : WFStates L) (h : states_get L k = none) :
    states_get (reconcile w cfg algos cs n L) k = none := by
  unfold reconcile
  rw [alex_fold_char, update_get_none hwf h]
  rfl

/-! Stability lemmas: records produced by one reconciliation pass are left
untouched by a second pass over the same external snapshot. -/

theorem ufs_step_fixed (w : World) (cfg : Option RunnerConfig) (n : Nat)
    (acc : States) {k : String} {r : BuildRecord}
    (hneutral : r.status = "building" →
      r.job_id = none ∨ ∃ jid, r.job_id = some jid ∧
        resolve_job w jid ≠ "completed" ∧ resolve_job w jid ≠ "failed") :
    ufs_step w cfg n acc (k, r) = acc := by
  unfold ufs_step
  by_cases hb : r.status = "building"
  · simp only [hb, if_true]
    cases hjob : r.job_id with
    | none => rfl
    | some jid =>
      rcases hneutral hb with hnone | ⟨jid', hjid', hc, hf⟩
      · rw [hnone] at hjob
        exact Option.noConfusion hjob
      · rw [hjid'] at hjob
        injection hjob with hji
        subst hji
        simp only
        rw [if_neg hc, if_neg hf]
  · simp only [hb, if_false]

theorem alex_transform_self_of_building {algos : List (String × String)}
    {cs : String → Bool} {n : Nat} {k : String} {r : BuildRecord}
    (h : (alex_transform algos cs n k r).status = "building") :
    alex_transform algos cs n k r = r := by
  unfold alex_transform at h ⊢
  by_cases hcond : ((algos.any fun av => get_key av.1 av.2 == k && cs av.1) = true)
      ∧ r.status ≠ "completed"
  · rw [if_pos hcond] at h
    exact absurd h (show ("completed" : String) ≠ "building" from by decide)
  · rw [if_neg hcond]

theorem record_update_neutral {w : World} {cfg : Option RunnerConfig}
    {n : Nat} {k : String} {r : BuildRecord} {jid : String}
    (hb : r.status = "building") (hj : r.job_id = some jid)
    (h : (record_update w cfg n k r).status = "building") :
    resolve_job w jid ≠ "completed" ∧ resolve_job w jid ≠ "failed" := by
  unfold record_update at h
  simp only [hb, if_true] at h
  rw [hj] at h
  simp only at h
  by_cases hc : resolve_job w jid = "completed"
  · exfalso
    rw [if_pos hc] at h
    cases cfg with
    | some c =>
      simp only at h
      by_cases hp :
          pyStrip (w.probe (container_path c (splitKey k).1 (splitKey k).2)) = "exists"
      · rw [if_pos hp] at h
        exact absurd h (show ("completed" : String) ≠ "building" from by decide)
      · rw [if_neg hp] at h
        exact absurd h (show ("failed" : String) ≠ "building" from by decide)
    | none =>
      exact absurd h (show ("completed" : String) ≠ "building" from by decide)
  · by_cases hf : resolve_job w jid = "failed"
    · exfalso
      rw [if_neg hc, if_pos hf] at h
      exact absurd h (show ("failed" : String) ≠ "building" from by decide)
    · exact ⟨hc, hf⟩

theorem record_update_self_of_building {w : World} {cfg : Option RunnerConfig}
    {n : Nat} {k : String} {r : BuildRecord}
    (h : (record_update w cfg n k r).status = "building") :
    record_update w cfg n k r = r := by
  by_cases hb : r.status = "building"
  · cases hj : r.job_id with
    | none =>
      unfold record_update
      rw [if_pos hb, hj]
    | some jid =>
      obtain ⟨hc, hf⟩ := record_update_neutral hb hj h
      unfold record_update
      rw [if_pos hb, hj]
      simp only
      rw [if_neg hc, if_neg hf]
  · unfold record_update
    rw [if_neg hb]

theorem alex_transform_listed {algos : List (String × String)} {cs : String → Bool}
    {n : Nat} {av : String × String} (r : BuildRecord)
    (hmem : av ∈ algos) (hcs : cs av.1 = true) :
    (alex_transform algos cs n (get_key av.1 av.2) r).status = "completed" := by
  by_cases hcomp : r.status = "completed"
  · rw [alex_transform_of_completed hcomp]
    exact hcomp
  · unfold alex_transform
    have hany : (algos.any fun x => get_key x.1 x.2 == get_key av.1 av.2 && cs x.1) = true := by
      rw [List.any_eq_true]
      exact ⟨av, hmem, by rw [beq_self_eq_true, hcs, Bool.and_self]⟩
    rw [if_pos ⟨hany, hcomp⟩]

theorem reconcile_entry_char {w : World} {cfg : RunnerConfig}
    {algos : List (String × String)} {cs : String → Bool} {n : Nat} {L : States}
    (hwf : WFStates L) (hnd : NodupKeys L) {k : String} {r2 : BuildRecord}
    (hmem : (k, r2) ∈ reconcile w cfg algos cs n L) :
    ∃ r1, states_get L k = some r1 ∧
      r2 = alex_transform algos cs n k (record_update w (some cfg) n k r1) := by
  have hnd2 : NodupKeys (reconcile w cfg algos cs n L) :=
    nodup_of_keys_eq (keys_reconcile w cfg algos cs n L) hnd
  have hget2 := states_get_of_mem_nodup hnd2 hmem
  cases hL : states_get L k with
  | none =>
    rw [reconcile_get_none hwf hL] at hget2
    exact absurd hget2 (by simp)
  | some r1 =>
    rw [reconcile_get_some hwf hnd hL] at hget2
    exact ⟨r1, rfl, (Option.some.inj hget2).symm⟩

/-- C5: reconciliation is idempotent. For a fixed external snapshot
(`w`, the per-job squeue/sacct/log answers and the existence probe) and a
fixed remote-existence map `cs`, running the full reconciliation pass of
`check_and_display_builds` twice in sequence yields the same ledger as
running it once: the second pass performs no status mutation, whatever
timestamps it would stamp. Keys are well formed and distinct, as for every
ledger the store itself writes. -/
theorem claim5_reconcile_idempotent (w : World) (cfg : RunnerConfig) (algos : List (String × String))
    (cs : String → Bool) (now1 now2 : Nat) (L : States)
    (hwf : WFStates L) (hnd : NodupKeys L) :
    reconcile w cfg algos cs now2 (reconcile w cfg algos cs now1 L)
      = reconcile w cfg algos cs now1 L := by
  have hupd : update_from_slurm w (some cfg) now2 (reconcile w cfg algos cs now1 L)
      = reconcile w cfg algos cs now1 L := by
    unfold update_from_slurm
    apply foldl_fixed
    intro kv hkv
    obtain ⟨k, r2⟩ := kv
    obtain ⟨r1, hr1, hr2⟩ := reconcile_entry_char hwf hnd hkv
    apply ufs_step_fixed
    intro hb2
    have halex : alex_transform algos cs now1 k (record_update w (some cfg) now1 k r1)
        = record_update w (some cfg) now1 k r1 := by
      apply alex_transform_self_of_building
      rw [← hr2]
      exact hb2
    rw [halex] at hr2
    have hru : record_update w (some cfg) now1 k r1 = r1 := by
      apply record_update_self_of_building
      rw [← hr2]
      exact hb2
    have hr2r1 : r2 = r1 := by rw [hr2, hru]
    cases hjob : r2.job_id with
    | none => exact Or.inl rfl
    | some jid =>
      refine Or.inr ⟨jid, rfl, ?_⟩
      have hb1 : r1.status = "building" := by rw [← hr2r1]; exact hb2
      have hj1 : r1.job_id = some jid := by rw [← hr2r1]; exact hjob
      have hbuild : (record_update w (some cfg) now1 k r1).status = "building" := by
        rw [hru]
        exact hb1
      exact record_update_neutral hb1 hj1 hbuild
  have halexfix : reconcile_alexandria algos cs now2 (reconcile w cfg algos cs now1 L)
      = reconcile w cfg algos cs now1 L := by
    unfold reconcile_alexandria
    apply foldl_fixed
    intro av hav
    unfold alex_step
    cases hst : get_status (reconcile w cfg algos cs now1 L) av.1 av.2 with
    | none => rfl
    | some st =>
      have hmem2 : (get_key av.1 av.2, st) ∈ reconcile w cfg algos cs now1 L :=
        mem_of_states_get hst
      obtain ⟨r1, hr1, hr2⟩ := reconcile_entry_char hwf hnd hmem2
      simp only
      by_cases hcs : cs av.1 = true
      · have hcomp : st.status = "completed" := by
          rw [hr2]
          exact alex_transform_listed _ hav hcs
        rw [if_neg fun hcond => hcond.2 hcomp]
      · rw [if_neg fun hcond => hcs hcond.1]
  show reconcile_alexandria algos cs now2
      (update_from_slurm w (some cfg) now2 (reconcile w cfg algos cs now1 L))
    = reconcile w cfg algos cs now1 L
  rw [hupd, halexfix]

/-! Membership in the planner's output. -/

theorem mem_plan_fold (cs : String → Bool) (L : States) :
    ∀ (l : List (String × String)) (acc : List (String × String)) (av : String × String),
      av ∈ l.foldl (plan_step cs L) acc →
      av ∈ acc ∨ (cs av.1 = false ∧ (get_status L av.1 av.2 = none ∨
        ∃ st, get_status L av.1 av.2 = some st ∧ st.status = "failed")) := by
  intro l
  induction l with
  | nil => intro acc av h; exact Or.inl h
  | cons x t ih =>
    intro acc av h
    rw [List.foldl_cons] at h
    rcases ih (plan_step cs L acc x) av h with hmem | hP
    · unfold plan_step at hmem
      by_cases hcs : cs x.1 = true
      · rw [if_pos hcs] at hmem
        exact Or.inl hmem
      · rw [if_neg hcs] at hmem
        have hcsf : cs x.1 = false := by
          cases hv : cs x.1
          · rfl
          · exact absurd hv hcs
        cases hst : get_status L x.1 x.2 with
        | none =>
          rw [hst] at hmem
          rcases List.mem_append.mp hmem with h1 | h2
          · exact Or.inl h1
          · have hx : av = x := List.mem_singleton.mp h2
            subst hx
            exact Or.inr ⟨hcsf, Or.inl hst⟩
        | some st =>
          rw [hst] at hmem
          simp only at hmem
          by_cases hf : st.status = "failed"
          · rw [if_pos hf] at hmem
            rcases List.mem_append.mp hmem with h1 | h2
            · exact Or.inl h1
            · have hx : av = x := List.mem_singleton.mp h2
              subst hx
              exact Or.inr ⟨hcsf, Or.inr ⟨st, hst, hf⟩⟩
          · rw [if_neg hf] at hmem
            exact Or.inl hmem
    · exact Or.inr hP

theorem mem_plan {algos : List (String × String)} {cs : String → Bool} {L : States}
    {av : String × String} (h : av ∈ plan algos cs L) :
    cs av.1 = false ∧ (get_status L av.1 av.2 = none ∨
      ∃ st, get_status L av.1 av.2 = some st ∧ st.status = "failed") := by
  rcases mem_plan_fold cs L algos [] av h with h0 | hP
  · exact absurd h0 (List.not_mem_nil av)
  · exact hP

/-! JSON model for the ledger file: `json.dump`/`json.load` of `_save` and
`_load` abstracted to the JSON value the file denotes. -/

/-- JSON values as written to and read from `build_state.json`. -/
inductive Jval where
  | jstr : String → Jval
  | jnum : Nat → Jval
  | jobj : List (String × Jval) → Jval

/-- Key lookup inside a JSON object. -/
def jlookup : List (String × Jval) → String → Option Jval
  | [], _ => none
  | (k, v) :: t, key => if k = key then some v else jlookup t key

/-- JSON object for one record, fields in the order the store writes them
(`status`, `job_id` when present, `started_at`, `updated_at`, `error` when
present). -/
def record_to_json (r : BuildRecord) : List (String × Jval) :=
  [("status", Jval.jstr r.status)]
    ++ (match r.job_id with
        | some j => [("job_id", Jval.jstr j)]
        | none => [])
    ++ [("started_at", Jval.jnum r.started_at), ("updated_at", Jval.jnum r.updated_at)]
    ++ (match r.error with
        | some e => [("error", Jval.jstr e)]
        | none => [])

/-- Reading one record object back. -/
def record_of_json (l : List (String × Jval)) : Option BuildRecord :=
  match jlookup l "status", jlookup l "started_at", jlookup l "updated_at" with
  | some (Jval.jstr st), some (Jval.jnum sa), some (Jval.jnum ua) =>
    some
      { status := st,
        job_id := match jlookup l "job_id" with
          | some (Jval.jstr j) => some j
          | _ => none,
        started_at := sa, updated_at := ua,
        error := match jlookup l "error" with
          | some (Jval.jstr e) => some e
          | _ => none }
  | _, _, _ => none

/-- `BuildState._save`: the JSON value `json.dump(self.states, f)` writes. -/
def save_states (L : States) : Jval :=
  Jval.jobj (L.map fun kv => (kv.1, Jval.jobj (record_to_json kv.2)))

/-- Reading the entries of the top-level object back. -/
def load_entries : List (String × Jval) → Option States
  | [] => some []
  | (k, Jval.jobj rj) :: t =>
    match record_of_json rj, load_entries t with
    | some r, some rest => some ((k, r) :: rest)
    | _, _ => none
  | _ => none

/-- `BuildState._load`: the ledger denoted by the JSON value in the file. -/
def load_states : Jval → Option States
  | Jval.jobj l => load_entries l
  | _ => none

theorem record_round_trip (r : BuildRecord) :
    record_of_json (record_to_json r) = some r := by
  obtain ⟨st, jid, sa, ua, err⟩ := r
  cases jid <;> cases err <;> rfl

/-- C9: ledger round-trip. Saving any ledger to the state file and loading
it back yields the identical ledger, so in particular every record's
status, presence of `job_id`, and presence of `error` are unchanged. -/
theorem claim9_round_trip (L : States) :
    load_states (save_states L) = some L := by
  induction L with
  | nil => rfl
  | cons kv t ih =>
    obtain ⟨k, r⟩ := kv
    show load_entries ((k, Jval.jobj (record_to_json r))
        :: t.map fun kv => (kv.1, Jval.jobj (record_to_json kv.2))) = some ((k, r) :: t)
    unfold load_entries
    rw [record_round_trip r]
    have ih' : load_entries (t.map fun kv => (kv.1, Jval.jobj (record_to_json kv.2)))
        = some t := ih
    rw [ih']

/-! Sequences of store operations and reconciliation passes, and the
error-field invariant they maintain. -/

/-- One mutating store operation, or a whole reconciliation pass. -/
inductive StoreOp where
  | opBuilding (a v jid : String) (now : Nat)
  | opCompleted (a v : String) (now : Nat)
  | opFailed (a v : String) (e : Option String) (now : Nat)
  | opClear (a v : String)
  | opReconcile (w : World) (cfg : RunnerConfig) (algos : List (String × String))
      (cs : String → Bool) (now : Nat)

/-- Applying one operation to the ledger. -/
def apply_op (L : States) : StoreOp → States
  | .opBuilding a v jid n => mark_building L a v jid n
  | .opCompleted a v n => mark_completed L a v n
  | .opFailed a v e n => mark_failed L a v e n
  | .opClear a v => clear_status L a v
  | .opReconcile w cfg algos cs n => reconcile w cfg algos cs n L

/-- Applying a sequence of operations, oldest first. -/
def apply_ops (L : States) (ops : List StoreOp) : States :=
  ops.foldl apply_op L

/-- The error field is only populated on records that failed, or that were
later forced to completed without a new episode. -/
def ErrOk (r : BuildRecord) : Prop :=
  r.error.isSome = true → r.status = "failed" ∨ r.status = "completed"

/-- Every record of the ledger satisfies `ErrOk`. -/
def ErrInv (L : States) : Prop :=
  ∀ kv ∈ L, ErrOk kv.2

theorem mem_states_set_elim {L : States} {k k' : String} {r r' : BuildRecord}
    (h : (k', r') ∈ states_set L k r) : (k', r') ∈ L ∨ r' = r := by
  induction L with
  | nil =>
    simp [states_set] at h
    exact Or.inr h.2
  | cons kv t ih =>
    obtain ⟨k0, r0⟩ := kv
    by_cases h0 : k0 = k
    · rw [states_set, if_pos h0] at h
      rcases List.mem_cons.mp h with heq | hmem
      · rw [Prod.mk.injEq] at heq
        exact Or.inr heq.2
      · exact Or.inl (List.mem_cons_of_mem _ hmem)
    · rw [states_set, if_neg h0] at h
      rcases List.mem_cons.mp h with heq | hmem
      · exact Or.inl (heq ▸ List.mem_cons_self _ t)
      · rcases ih hmem with h1 | h2
        · exact Or.inl (List.mem_cons_of_mem _ h1)
        · exact Or.inr h2

theorem mem_states_erase_elim {L : States} {k k' : String} {r' : BuildRecord}
    (h : (k', r') ∈ states_erase L k) : (k', r') ∈ L := by
  induction L with
  | nil => simp [states_erase] at h
  | cons kv t ih =>
    obtain ⟨k0, r0⟩ := kv
    by_cases h0 : k0 = k
    · rw [states_erase, if_pos h0] at h
      exact List.mem_cons_of_mem _ h
    · rw [states_erase, if_neg h0] at h
      rcases List.mem_cons.mp h with heq | hmem
      · exact heq ▸ List.mem_cons_self _ t
      · exact List.mem_cons_of_mem _ (ih hmem)

theorem errInv_states_set {L : States} {k : String} {r : BuildRecord}
    (hL : ErrInv L) (hr : ErrOk r) : ErrInv (states_set L k r) := by
  intro kv hkv
  obtain ⟨k', r'⟩ := kv
  rcases mem_states_set_elim hkv with hmem | heq
  · exact hL _ hmem
  · exact heq ▸ hr

theorem errInv_mark_building {L : States} {a v jid : String} {n : Nat}
    (hL : ErrInv L) : ErrInv (mark_building L a v jid n) := by
  apply errInv_states_set hL
  intro h
  exact absurd h (show ¬(none : Option String).isSome = true from by decide)

theorem errInv_mark_completed {L : States} {a v : String} {n : Nat}
    (hL : ErrInv L) : ErrInv (mark_completed L a v n) := by
  unfold mark_completed
  cases states_get L (get_key a v) with
  | none => exact hL
  | some r =>
    apply errInv_states_set hL
    intro _
    exact Or.inr rfl

theorem errInv_mark_failed {L : States} {a v : String} {e : Option String} {n : Nat}
    (hL : ErrInv L) : ErrInv (mark_failed L a v e n) := by
  unfold mark_failed
  cases states_get L (get_key a v) with
  | none => exact hL
  | some r =>
    apply errInv_states_set hL
    intro _
    exact Or.inl rfl

theorem errInv_clear_status {L : States} {a v : String}
    (hL : ErrInv L) : ErrInv (clear_status L a v) := by
  intro kv hkv
  obtain ⟨k', r'⟩ := kv
  exact hL _ (mem_states_erase_elim hkv)

theorem errInv_ufs_step {w : World} {cfg : Option RunnerConfig} {n : Nat}
    {acc : States} (kv : String × BuildRecord)
    (hL : ErrInv acc) : ErrInv (ufs_step w cfg n acc kv) := by
  unfold ufs_step
  repeat' split
  all_goals first
    | exact hL
    | exact errInv_mark_completed hL
    | exact errInv_mark_failed hL

theorem errInv_foldl {β : Type} {f : States → β → States}
    (hf : ∀ acc x, ErrInv acc → ErrInv (f acc x)) :
    ∀ (l : List β) (a : States), ErrInv a → ErrInv (l.foldl f a) := by
  intro l
  induction l with
  | nil => intro a h; exact h
  | cons x t ih =>
    intro a h
    rw [List.foldl_cons]
    exact ih _ (hf a x h)

theorem errInv_alex_step {cs : String → Bool} {n : Nat} {acc : States}
    (av : String × String) (hL : ErrInv acc) : ErrInv (alex_step cs n acc av) := by
  unfold alex_step
  repeat' split
  all_goals first
    | exact hL
    | exact errInv_mark_completed hL

theorem errInv_reconcile {w : World} {cfg : RunnerConfig}
    {algos : List (String × String)} {cs : String → Bool} {n : Nat} {L : States}
    (hL : ErrInv L) : ErrInv (reconcile w cfg algos cs n L) := by
  unfold reconcile reconcile_alexandria update_from_slurm
  apply errInv_foldl (fun acc x h => errInv_alex_step x h)
  apply errInv_foldl (fun acc x h => errInv_ufs_step x h)
  exact hL

theorem errInv_apply_op {L : States} (op : StoreOp) (hL : ErrInv L) :
    ErrInv (apply_op L op) := by
  cases op with
  | opBuilding a v jid n => exact errInv_mark_building hL
  | opCompleted a v n => exact errInv_mark_completed hL
  | opFailed a v e n => exact errInv_mark_failed hL
  | opClear a v => exact errInv_clear_status hL
  | opReconcile w cfg algos cs n => exact errInv_reconcile hL

theorem errInv_apply_ops (ops : List StoreOp) :
    ErrInv (apply_ops [] ops) := by
  unfold apply_ops
  apply errInv_foldl (fun acc x h => errInv_apply_op x h)
  intro kv hkv
  exact absurd hkv (List.not_mem_nil kv)

/-! Evaluation lemmas for the per-record reconciliation outcome. -/

theorem record_update_eval_missing {w : World} {cfg : RunnerConfig} {n : Nat}
    {k : String} {r : BuildRecord} {jid : String}
    (hb : r.status = "building") (hj : r.job_id = some jid)
    (hres : resolve_job w jid = "completed")
    (hp : pyStrip (w.probe (container_path cfg (splitKey k).1 (splitKey k).2)) ≠ "exists") :
    record_update w (some cfg) n k r
      = { r with status := "failed", updated_at := n, error := some missing_diag } := by
  simp [record_update, hb, hj, hres, hp]

theorem record_update_eval_exists {w : World} {cfg : RunnerConfig} {n : Nat}
    {k : String} {r : BuildRecord} {jid : String}
    (hb : r.status = "building") (hj : r.job_id = some jid)
    (hres : resolve_job w jid = "completed")
    (hp : pyStrip (w.probe (container_path cfg (splitKey k).1 (splitKey k).2)) = "exists") :
    record_update w (some cfg) n k r
      = { r with status := "completed", updated_at := n } := by
  simp [record_update, hb, hj, hres, hp]

/-! Concrete snapshots used by witnesses and counterexamples. -/

/-- Snapshot in which every job is still in the live queue and every
artifact exists remotely. -/
def wRunning : World :=
  ⟨fun _ => ⟨0, "RUNNING"⟩, fun _ => ⟨1, ""⟩, fun _ => none, fun _ => "exists"⟩

/-- Snapshot in which every job has left the queue, accounting reports
COMPLETED, and the existence probe returns empty output (the stdout of an
ssh connection failure: neither "exists" nor "missing"). -/
def wDone : World :=
  ⟨fun _ => ⟨1, ""⟩, fun _ => ⟨0, "COMPLETED"⟩, fun _ => none, fun _ => ""⟩

/-- A small `config["alexandria"]` instance. -/
def cfgDemo : RunnerConfig := ⟨"alexandria", "containers"⟩

/-- A record mid-build. -/
def recBuilding : BuildRecord := ⟨"building", some "42", 0, 0, none⟩

/-- A failed record with a stored diagnostic. -/
def recFailed : BuildRecord := ⟨"failed", some "41", 0, 0, some "previous build failed"⟩

/-- A completed record. -/
def recCompleted : BuildRecord := ⟨"completed", some "40", 0, 0, none⟩

/-! The claims. -/

/-- C1, amended: remote precedence holds for every key the reconciliation
pass covers. For every (entity, version) pair listed in the cycle's
algorithms input that has a BuildRecord in the ledger, if the remote
existence map reports the entity's artifact as existing, the record's
status after one reconciliation pass is "completed", regardless of its
prior status or of any scheduler signal. (As literally stated over every
ledger key the claim fails: the pass only iterates the algorithms list, see
the counterexample.) -/
theorem claim1_remote_precedence_listed (w : World) (cfg : RunnerConfig)
    (algos : List (String × String)) (cs : String → Bool) (now : Nat) (L : States)
    (a v : String) (r : BuildRecord)
    (hwf : WFStates L) (hnd : NodupKeys L)
    (hmem : (a, v) ∈ algos) (hcs : cs a = true)
    (hrec : states_get L (get_key a v) = some r) :
    ∃ r', states_get (reconcile w cfg algos cs now L) (get_key a v) = some r'
      ∧ r'.status = "completed" :=
  ⟨_, reconcile_get_some hwf hnd hrec,
    alex_transform_listed _ hmem hcs⟩

/-- C1 counterexample: the existence map says the artifact of entity
"algoX" exists, the ledger holds a failed record for "algoX@2.0", but the
cycle's algorithms input lists only version "1.0", so reconciliation leaves
the record failed, not completed — refuting the claim quantified over every
ledger key. -/
theorem claim1_counterexample :
    (fun nm => nm == "algoX") "algoX" = true ∧
    (states_get (reconcile wRunning cfgDemo [("algoX", "1.0")] (fun nm => nm == "algoX") 5
        [("algoX@2.0", recFailed)]) "algoX@2.0").map BuildRecord.status = some "failed" ∧
    some "failed" ≠ some "completed" := by
  refine ⟨rfl, by decide, by decide⟩

/-- Witness for C1's amended theorem at a concrete failed record. -/
theorem claim1_witness :
    WFStates [("algoX@1.0", recFailed)] ∧ NodupKeys [("algoX@1.0", recFailed)] ∧
    (∃ r', states_get (reconcile wRunning cfgDemo [("algoX", "1.0")] (fun _ => true) 7
        [("algoX@1.0", recFailed)]) (get_key "algoX" "1.0") = some r'
      ∧ r'.status = "completed") :=
  ⟨by decide, by decide,
    claim1_remote_precedence_listed wRunning cfgDemo [("algoX", "1.0")] (fun _ => true) 7
      [("algoX@1.0", recFailed)] "algoX" "1.0" recFailed
      (by decide) (by decide) (by decide) rfl (by decide)⟩

/-- C2: classification ordering. If the live-queue query reports the job as
present (zero return code and non-empty stripped output), `check_job_status`
returns "running", whatever the accounting answer or the captured log would
say — the queue check short-circuits both. -/
theorem claim2_queue_short_circuit (squeue sacct : CmdResult) (log : Option String)
    (hrc : squeue.returncode = 0) (hout : pyStrip squeue.stdout ≠ "") :
    check_job_status squeue sacct log = "running" := by
  have hcond : ¬(squeue.returncode ≠ 0 ∨ pyStrip squeue.stdout = "") := by
    rintro (h1 | h2)
    · exact h1 hrc
    · exact hout h2
  unfold check_job_status
  rw [if_neg hcond]

/-- Witness for C2: accounting reports FAILED and the log holds a fatal
marker, yet the queued job classifies as running. -/
theorem claim2_witness :
    (⟨0, "RUNNING"⟩ : CmdResult).returncode = 0 ∧
    check_job_status ⟨0, "RUNNING"⟩ ⟨0, "FAILED"⟩ (some "FATAL: build error") = "running" :=
  ⟨rfl, claim2_queue_short_circuit _ _ _ rfl (by decide)⟩

/-- C3: inconsistent-completion handling. A building record whose job
resolves to "completed" during `update_from_slurm` is marked failed with
the missing-remotely diagnostic when the probe does not confirm the
artifact, and marked completed when it does. -/
theorem claim3_inconsistent_completion (w : World) (cfg : RunnerConfig) (now : Nat)
    (L : States) (k : String) (r : BuildRecord) (jid : String)
    (hwf : WFStates L) (hnd : NodupKeys L)
    (hrec : states_get L k = some r) (hb : r.status = "building")
    (hj : r.job_id = some jid) (hres : resolve_job w jid = "completed") :
    (pyStrip (w.probe (container_path cfg (splitKey k).1 (splitKey k).2)) ≠ "exists" →
      states_get (update_from_slurm w (some cfg) now L) k
        = some { r with status := "failed", updated_at := now, error := some missing_diag }) ∧
    (pyStrip (w.probe (container_path cfg (splitKey k).1 (splitKey k).2)) = "exists" →
      states_get (update_from_slurm w (some cfg) now L) k
        = some { r with status := "completed", updated_at := now }) := by
  constructor
  · intro hp
    rw [update_get_some hwf hnd hrec, record_update_eval_missing hb hj hres hp]
  · intro hp
    rw [update_get_some hwf hnd hrec, record_update_eval_exists hb hj hres hp]

/-- Witness for C3 at a concrete building record whose job completed while
the probe does not confirm the artifact. -/
theorem claim3_witness :
    resolve_job wDone "42" = "completed" ∧
    ((pyStrip (wDone.probe
        (container_path cfgDemo (splitKey "algoX@1.0").1 (splitKey "algoX@1.0").2)) ≠ "exists" →
      states_get (update_from_slurm wDone (some cfgDemo) 7 [("algoX@1.0", recBuilding)])
          "algoX@1.0"
        = some { recBuilding with status := "failed", updated_at := 7, error := some missing_diag }) ∧
    (pyStrip (wDone.probe
        (container_path cfgDemo (splitKey "algoX@1.0").1 (splitKey "algoX@1.0").2)) = "exists" →
      states_get (update_from_slurm wDone (some cfgDemo) 7 [("algoX@1.0", recBuilding)])
          "algoX@1.0"
        = some { recBuilding with status := "completed", updated_at := 7 })) :=
  ⟨by decide,
    claim3_inconsistent_completion wDone cfgDemo 7 [("algoX@1.0", recBuilding)]
      "algoX@1.0" recBuilding "42" (by decide) (by decide) (by decide) (by decide)
      (by decide) (by decide)⟩

/-- C4: no duplicate submissions. If a key's record still has status
"building" after reconciliation, the planner's `needs_building` output
never contains that key. -/
theorem claim4_no_duplicate_submissions (w : World) (cfg : RunnerConfig)
    (algos : List (String × String)) (cs : String → Bool) (now : Nat) (L : States)
    (a v : String) (st : BuildRecord)
    (hst : states_get (reconcile w cfg algos cs now L) (get_key a v) = some st)
    (hb : st.status = "building") :
    (a, v) ∉ plan algos cs (reconcile w cfg algos cs now L) := by
  intro hmem
  rcases mem_plan hmem with ⟨hcs, hnone | ⟨st', hst', hf⟩⟩
  · have hnone' : states_get (reconcile w cfg algos cs now L) (get_key a v) = none := hnone
    rw [hst] at hnone'
    exact Option.noConfusion hnone'
  · have hst'' : states_get (reconcile w cfg algos cs now L) (get_key a v) = some st' := hst'
    rw [hst] at hst''
    have heq := Option.some.inj hst''
    rw [← heq, hb] at hf
    exact absurd hf (show ("building" : String) = "failed" → False from by decide)

/-- Witness for C4: a record whose job is still queued stays building and
is not planned. -/
theorem claim4_witness :
    states_get (reconcile wRunning cfgDemo [("algoX", "1.0")] (fun _ => false) 7
        [("algoX@1.0", recBuilding)]) (get_key "algoX" "1.0") = some recBuilding ∧
    ("algoX", "1.0") ∉ plan [("algoX", "1.0")] (fun _ => false)
      (reconcile wRunning cfgDemo [("algoX", "1.0")] (fun _ => false) 7
        [("algoX@1.0", recBuilding)]) :=
  ⟨by decide,
    claim4_no_duplicate_submissions wRunning cfgDemo [("algoX", "1.0")] (fun _ => false) 7
      [("algoX@1.0", recBuilding)] "algoX" "1.0" recBuilding (by decide) (by decide)⟩

/-- Witness for C5 at a concrete one-record ledger with a still-queued job. -/
theorem claim5_witness :
    reconcile wRunning cfgDemo [("algoX", "1.0")] (fun _ => false) 3
        (reconcile wRunning cfgDemo [("algoX", "1.0")] (fun _ => false) 2
          [("algoX@1.0", recBuilding)])
      = reconcile wRunning cfgDemo [("algoX", "1.0")] (fun _ => false) 2
          [("algoX@1.0", recBuilding)] :=
  claim5_reconcile_idempotent wRunning cfgDemo [("algoX", "1.0")] (fun _ => false) 2 3
    [("algoX@1.0", recBuilding)] (by decide) (by decide)

/-- C6, amended: completed-but-missing handling. The algorithm submission
planner does NOT include a key whose record is "completed" (it only prints
a warning), so completed-but-missing keys are never forced retries there;
only the evaluation-container check treats a completed-but-missing record
as needing a build (it returns true). -/
theorem claim6_completed_missing_handling
    (algos : List (String × String)) (cs : String → Bool) (L : States)
    (a v : String) (st : BuildRecord)
    (w : World) (cfg : RunnerConfig) (now : Nat) (evL : States) (est : BuildRecord)
    (h1 : get_status L a v = some st) (h2 : st.status = "completed")
    (h3 : get_status (update_from_slurm w (some cfg) now evL) "evaluation" "evaluation"
      = some est)
    (h4 : est.status = "completed") :
    ((a, v) ∉ plan algos cs L) ∧ (eval_needs_build w cfg now false evL).1 = true := by
  constructor
  · intro hmem
    rcases mem_plan hmem with ⟨hcs, hnone | ⟨st', hst', hf⟩⟩
    · have hnone' : get_status L a v = none := hnone
      rw [h1] at hnone'
      exact Option.noConfusion hnone'
    · have hst'' : get_status L a v = some st' := hst'
      rw [h1] at hst''
      have heq := Option.some.inj hst''
      rw [← heq, h2] at hf
      exact absurd hf (show ("completed" : String) = "failed" → False from by decide)
  · have hnb : est.status ≠ "building" := by
      rw [h4]
      decide
    have hnf : est.status ≠ "failed" := by
      rw [h4]
      decide
    unfold eval_needs_build
    rw [h3]
    simp only
    rw [if_neg hnb, if_neg hnf, if_pos h4]

/-- C6 counterexample: a completed record whose artifact the existence map
reports as absent; the planner's output is empty, so the key is not
included as a forced retry, refuting the claim for the algorithm planner. -/
theorem claim6_counterexample :
    get_status [("algoX@1.0", recCompleted)] "algoX" "1.0" = some recCompleted ∧
    (fun (_ : String) => false) "algoX" = false ∧
    plan [("algoX", "1.0")] (fun _ => false)
      (reconcile wRunning cfgDemo [("algoX", "1.0")] (fun _ => false) 7
        [("algoX@1.0", recCompleted)]) = [] := by
  refine ⟨by decide, rfl, by decide⟩

/-- Witness for C6's amended theorem at concrete ledgers. -/
theorem claim6_witness :
    (("algoX", "1.0") ∉ plan [("algoX", "1.0")] (fun _ => false)
        [("algoX@1.0", recCompleted)]) ∧
    (eval_needs_build wRunning cfgDemo 7 false [("evaluation@evaluation", recCompleted)]).1
      = true :=
  claim6_completed_missing_handling [("algoX", "1.0")] (fun _ => false)
    [("algoX@1.0", recCompleted)] "algoX" "1.0" recCompleted
    wRunning cfgDemo 7 [("evaluation@evaluation", recCompleted)] recCompleted
    (by decide) (by decide) (by decide) (by decide)

/-- C7, amended: transient probe failures are not isolated. For a building
record whose job resolves to "completed", any probe outcome whose stripped
output is not "exists" — including the empty output of a connection
failure — marks the record failed with the missing-remotely diagnostic and
does mutate the ledger; there is no treat-as-Unknown, no-mutation path. -/
theorem claim7_transient_probe_marks_failed (w : World) (cfg : RunnerConfig) (now : Nat)
    (L : States) (k : String) (r : BuildRecord) (jid : String)
    (hwf : WFStates L) (hnd : NodupKeys L)
    (hrec : states_get L k = some r) (hb : r.status = "building")
    (hj : r.job_id = some jid) (hres : resolve_job w jid = "completed")
    (hp : pyStrip (w.probe (container_path cfg (splitKey k).1 (splitKey k).2)) ≠ "exists") :
    states_get (update_from_slurm w (some cfg) now L) k
      = some { r with status := "failed", updated_at := now, error := some missing_diag } ∧
    states_get (update_from_slurm w (some cfg) now L) k ≠ some r := by
  have h1 : states_get (update_from_slurm w (some cfg) now L) k
      = some { r with status := "failed", updated_at := now, error := some missing_diag } := by
    rw [update_get_some hwf hnd hrec, record_update_eval_missing hb hj hres hp]
  refine ⟨h1, ?_⟩
  rw [h1]
  intro heq
  have h2 := congrArg BuildRecord.status (Option.some.inj heq)
  rw [hb] at h2
  exact absurd h2 (show ("failed" : String) = "building" → False from by decide)

/-- C7 counterexample: the probe returns the empty output of a connection
failure (neither "exists" nor "missing"); the building record is mutated
to failed anyway instead of being left untouched for the next cycle. -/
theorem claim7_counterexample :
    wDone.probe (container_path cfgDemo "algoX" "1.0") = "" ∧
    update_from_slurm wDone (some cfgDemo) 7 [("algoX@1.0", recBuilding)]
      ≠ [("algoX@1.0", recBuilding)] ∧
    states_get (update_from_slurm wDone (some cfgDemo) 7 [("algoX@1.0", recBuilding)])
        "algoX@1.0"
      = some ⟨"failed", some "42", 0, 7, some missing_diag⟩ := by
  refine ⟨rfl, by decide, by decide⟩

/-- Witness for C7's amended theorem. -/
theorem claim7_witness :
    states_get (update_from_slurm wDone (some cfgDemo) 9 [("algoX@1.0", recBuilding)])
        "algoX@1.0"
      = some { recBuilding with status := "failed", updated_at := 9, error := some missing_diag } ∧
    states_get (update_from_slurm wDone (some cfgDemo) 9 [("algoX@1.0", recBuilding)])
        "algoX@1.0"
      ≠ some recBuilding :=
  claim7_transient_probe_marks_failed wDone cfgDemo 9 [("algoX@1.0", recBuilding)]
    "algoX@1.0" recBuilding "42" (by decide) (by decide) (by decide) (by decide)
    (by decide) (by decide) (by decide)

/-- C8, amended: the error field is populated only by failure. After any
sequence of store operations and reconciliation passes starting from the
empty ledger, a record whose `error` field is present has status "failed"
or "completed" — the latter because `mark_completed` (also when invoked by
reconciliation on a failed record whose artifact exists) does not clear a
stale diagnostic; `error` is never present on a "building" record. -/
theorem claim8_error_only_after_failure (ops : List StoreOp) (k : String) (r : BuildRecord)
    (hmem : (k, r) ∈ apply_ops [] ops) (herr : r.error.isSome = true) :
    r.status = "failed" ∨ r.status = "completed" :=
  errInv_apply_ops ops (k, r) hmem herr

/-- C8 counterexample: build, fail with a diagnostic, then mark completed;
the record keeps the error field while its status is "completed", refuting
"error present only when status = failed". -/
theorem claim8_counterexample :
    states_get (apply_ops [] [StoreOp.opBuilding "algoX" "1.0" "42" 0,
        StoreOp.opFailed "algoX" "1.0" (some "boom") 1,
        StoreOp.opCompleted "algoX" "1.0" 2]) "algoX@1.0"
      = some ⟨"completed", some "42", 0, 2, some "boom"⟩ ∧
    (⟨"completed", some "42", 0, 2, some "boom"⟩ : BuildRecord).error.isSome = true ∧
    (⟨"completed", some "42", 0, 2, some "boom"⟩ : BuildRecord).status ≠ "failed" := by
  refine ⟨by decide, rfl, by decide⟩

/-- Witness for C8's amended theorem after a build-then-fail sequence. -/
theorem claim8_witness :
    (("algoX@1.0", (⟨"failed", some "42", 0, 1, some "boom"⟩ : BuildRecord)) ∈
      apply_ops [] [StoreOp.opBuilding "algoX" "1.0" "42" 0,
        StoreOp.opFailed "algoX" "1.0" (some "boom") 1]) ∧
    ((⟨"failed", some "42", 0, 1, some "boom"⟩ : BuildRecord).status = "failed" ∨
      (⟨"failed", some "42", 0, 1, some "boom"⟩ : BuildRecord).status = "completed") :=
  ⟨by decide,
    claim8_error_only_after_failure
      [StoreOp.opBuilding "algoX" "1.0" "42" 0, StoreOp.opFailed "algoX" "1.0" (some "boom") 1]
      "algoX@1.0" ⟨"failed", some "42", 0, 1, some "boom"⟩ (by decide) rfl⟩

/-- C10: absent-key mutators are no-ops. For a key with no record,
`mark_completed`, `mark_failed` and `clear_status` leave the ledger
entirely unchanged and create no record, while `mark_building` creates the
fresh building record for the key. -/
theorem claim10_absent_key_mutators (L : States) (a v jid : String) (e : Option String)
    (n m p : Nat) (h : states_get L (get_key a v) = none) :
    mark_completed L a v n = L ∧ mark_failed L a v e m = L ∧ clear_status L a v = L ∧
    states_get (mark_building L a v jid p) (get_key a v)
      = some ⟨"building", some jid, p, p, none⟩ := by
  refine ⟨?_, ?_, ?_, ?_⟩
  · unfold mark_completed
    rw [h]
  · unfold mark_failed
    rw [h]
  · unfold clear_status
    exact states_erase_of_none h
  · unfold mark_building
    exact states_get_set_self L (get_key a v) _

/-- Witness for C10 on a ledger that holds only an unrelated key. -/
theorem claim10_witness :
    states_get [("other@1.0", recCompleted)] (get_key "algoX" "1.0") = none ∧
    (mark_completed [("other@1.0", recCompleted)] "algoX" "1.0" 1
        = [("other@1.0", recCompleted)] ∧
      mark_failed [("other@1.0", recCompleted)] "algoX" "1.0" (some "E") 2
        = [("other@1.0", recCompleted)] ∧
      clear_status [("other@1.0", recCompleted)] "algoX" "1.0"
        = [("other@1.0", recCompleted)] ∧
      states_get (mark_building [("other@1.0", recCompleted)] "algoX" "1.0" "77" 3)
          (get_key "algoX" "1.0")
        = some ⟨"building", some "77", 3, 3, none⟩) :=
  ⟨by decide,
    claim10_absent_key_mutators [("other@1.0", recCompleted)] "algoX" "1.0" "77"
      (some "E") 1 2 3 (by decide)⟩
